import Mathlib

/-!
Shallow embedding of the filter-and-aggregate pipeline of `src/app.py`
(an analytics dashboard over a table of electric-vehicle registrations).

The dataset is modelled as a `List Record` in insertion order.  The pandas
operations the pipeline uses are translated as follows, per their library
semantics:

* `df[mask₁ & mask₂ & ...]`      — `List.filter` with the conjunction of the
  row predicates, preserving row order (app.py lines 106-111);
* `Series.between(lo, hi)`        — inclusive on both ends, `lo ≤ x ∧ x ≤ hi`;
* `Series.isin(xs)`               — membership in `xs` (all-false for `xs = []`);
* `Series.value_counts()`         — distinct values in first-appearance order,
  each with its occurrence count, then stably sorted by count descending
  (pandas sorts `value_counts` results with a stable sort, so ties keep
  first-appearance order); `.head(N)` takes the first `N` rows;
* `df.groupby(k).size()`          — distinct keys sorted ascending (groupby
  defaults to `sort=True`), each with its group size;
* `Series.pct_change()`           — first entry NaN; entry `i` is
  `x[i]/x[i-1] - 1` under IEEE float rules, so a zero denominator yields
  `+inf` (or NaN when the numerator is also zero);
* `Series.mean()` on empty input  — NaN, which the dashboard converts to an
  explicit "N/A" via `pd.isna` (app.py lines 139-143, 431-436); the pair is
  modelled as an `Option`.
-/

namespace EV

/-- One vehicle registration row, with the columns the pipeline reads
(app.py: `Model Year`, `State`, `City`, `Make`, `Model`,
`Electric Vehicle Type`, `Clean Alternative Fuel Vehicle (CAFV) Eligibility`,
`Electric Range`, `Base MSRP`). -/
structure Record where
  modelYear : Int
  state : String
  city : String
  make : String
  model : String
  evType : String
  cafvEligibility : String
  electricRange : Nat
  baseMsrp : Nat
  deriving DecidableEq

/-- The user's filter selection (app.py sidebar: `year_range`,
`selected_states`, `selected_makes`, `selected_ev_types`). -/
structure FilterSpec where
  yearMin : Int
  yearMax : Int
  states : List String
  makes : List String
  evTypes : List String
  deriving DecidableEq

/-- Row predicate of the boolean mask at app.py lines 106-111:
`Model Year` between the slider bounds (inclusive), and `State`, `Make`,
`Electric Vehicle Type` each in the corresponding multiselect list. -/
def recordPasses (s : FilterSpec) (r : Record) : Bool :=
  (decide (s.yearMin ≤ r.modelYear) && decide (r.modelYear ≤ s.yearMax))
    && decide (r.state ∈ s.states)
    && decide (r.make ∈ s.makes)
    && decide (r.evType ∈ s.evTypes)

/-- The filter at app.py lines 106-111: `filtered_df = df[mask]`, keeping
the rows whose mask entry is true, in original order. -/
def filterEngine (d : List Record) (s : FilterSpec) : List Record :=
  d.filter (recordPasses s)

/-- Modelled from the spec: a record passes a FilterSpec iff all four
predicates hold — year within the closed range, state in the states set,
make in the makes set, evType in the evTypes set (spec §3 invariant).
Used only to compare against `recordPasses`, which is the code's mask. -/
def specPasses (s : FilterSpec) (r : Record) : Prop :=
  (s.yearMin ≤ r.modelYear ∧ r.modelYear ≤ s.yearMax)
    ∧ r.state ∈ s.states ∧ r.make ∈ s.makes ∧ r.evType ∈ s.evTypes

instance (s : FilterSpec) (r : Record) : Decidable (specPasses s r) := by
  unfold specPasses; infer_instance

/-- Distinct values of a list in first-appearance order: the key order a
pandas hash table produces before `value_counts` sorts by count. -/
def dedupFirst {α : Type} [DecidableEq α] : List α → List α
  | [] => []
  | x :: xs => x :: (dedupFirst xs).filter (fun y => decide (y ≠ x))

/-- Comparison used by `value_counts`: sort key/count pairs by count
descending.  Ties compare true in input order, so a stable sort keeps
first-appearance order. -/
def countGE {α : Type} (a b : α × Nat) : Prop := b.2 ≤ a.2

instance {α : Type} : DecidableRel (@countGE α) := fun a b => Nat.decLe b.2 a.2

instance {α : Type} : IsTotal (α × Nat) countGE :=
  ⟨fun a b => (Nat.le_total b.2 a.2).imp id id⟩

instance {α : Type} : IsTrans (α × Nat) countGE :=
  ⟨fun _ _ _ hab hbc => Nat.le_trans hbc hab⟩

/-- Comparison used by `groupby(...).size()`: group keys ascending. -/
def keyLE {α : Type} [LinearOrder α] (a b : α × Nat) : Prop := a.1 ≤ b.1

instance {α : Type} [LinearOrder α] : DecidableRel (@keyLE α _) :=
  fun a b => inferInstanceAs (Decidable (a.1 ≤ b.1))

instance {α : Type} [LinearOrder α] : IsTotal (α × Nat) keyLE :=
  ⟨fun a b => le_total a.1 b.1⟩

instance {α : Type} [LinearOrder α] : IsTrans (α × Nat) keyLE :=
  ⟨fun _ _ _ hab hbc => le_trans hab hbc⟩

/-- pandas `Series.value_counts()`: each distinct observed value with its
occurrence count, sorted by count descending with a stable sort (ties stay
in first-appearance order).  Used at app.py lines 170, 181, 230, 247, 265,
395, 425-426, 439-440, 445-446. -/
def valueCounts {α : Type} [DecidableEq α] (l : List α) : List (α × Nat) :=
  List.insertionSort countGE ((dedupFirst l).map (fun v => (v, l.count v)))

/-- Top-N truncation of a value-count mapping, as in
`value_counts().head(N)` (app.py lines 170, 230, 265, 305). -/
def topN {α : Type} [DecidableEq α] (n : Nat) (l : List α) : List (α × Nat) :=
  (valueCounts l).take n

/-- The yearly-count table of app.py lines 204-205:
`filtered_df.groupby('Model Year').size()` — one row per distinct model
year, keys sorted ascending (groupby defaults to `sort=True`), each with
the number of records of that year. -/
def yearlyCounts (d : List Record) : List (Int × Nat) :=
  List.insertionSort keyLE
    ((dedupFirst (d.map (fun r => r.modelYear))).map
      (fun y => (y, (d.map (fun r => r.modelYear)).count y)))

/-- Value of one growth-rate cell as pandas floats produce it:
`pct_change` is `cur/prev - 1`, multiplied by 100, so a zero `prev` yields
`+inf` (NaN when `cur` is also zero) under IEEE division rules. -/
inductive PFloat where
  | nan : PFloat
  | inf : PFloat
  | val : ℚ → PFloat
  deriving DecidableEq

/-- One step of `pct_change() * 100` given the previous count. -/
def pctStep (prev c : Nat) : PFloat :=
  if prev = 0 then (if c = 0 then PFloat.nan else PFloat.inf)
  else PFloat.val ((((c : ℚ) - (prev : ℚ)) / (prev : ℚ)) * 100)

/-- Tail of the growth-rate column, carrying the previous year's count. -/
def growthAux (prev : Nat) : List (Int × Nat) → List (Int × PFloat)
  | [] => []
  | (y, c) :: rest => (y, pctStep prev c) :: growthAux c rest

/-- The `Growth_Rate` column of app.py line 219:
`yearly_counts['Count'].pct_change() * 100`, paired with each year.  The
first year's entry is NaN (pandas marks it missing, and line 221 skips it
with `yearly_counts[1:]`). -/
def growthRates : List (Int × Nat) → List (Int × PFloat)
  | [] => []
  | (y, c) :: rest => (y, PFloat.nan) :: growthAux c rest

/-- The average of the non-sentinel electric-range values, app.py line 139:
`filtered_df[filtered_df['Electric Range'] > 0]['Electric Range'].mean()`.
The `Option` result models the pair (NaN mean on empty input, `pd.isna`
check at lines 142 and 433) that the dashboard uses to signal "N/A". -/
def avgRange (d : List Record) : Option ℚ :=
  let valid := (d.filter (fun r => decide (0 < r.electricRange))).map
    (fun r => (r.electricRange : ℚ))
  if valid.length = 0 then none
  else some (valid.sum / (valid.length : ℚ))

/-- Modelled from the spec's words (§4.2, numeric distribution summary):
the valid range values of a view are the `electricRange` values after
dropping every value equal to the sentinel 0.  Used only to compare
against `avgRange`, which transcribes the code's row filter. -/
def specValidRanges (d : List Record) : List Nat :=
  (d.map (fun r => r.electricRange)).filter (fun x => decide (x ≠ 0))

/-- The headline facts of app.py lines 424-450: market-leading make with
its count and share, dominant EV type with its share, leading state with
its count and share, and the average non-sentinel range. -/
structure InsightSet where
  marketLeader : String
  marketLeaderCount : Nat
  marketLeaderPct : ℚ
  dominantType : String
  dominantTypePct : ℚ
  geographicLeader : String
  geographicLeaderCount : Nat
  geographicLeaderPct : ℚ
  averageRange : Option ℚ
  deriving DecidableEq

/-- The insights block, app.py lines 114 and 424-450.  It runs only under
the `len(filtered_df) > 0` guard of line 114; on an empty view the
dashboard shows a warning instead (line 453), modelled as `none`.  Inside
the guard, `value_counts().index[0]` / `.iloc[0]` read the head of the
(nonempty) count mapping, and each share divides by `len(filtered_df)`. -/
def insights (d : List Record) : Option InsightSet :=
  if 0 < d.length then
    let topMake := (valueCounts (d.map (fun r => r.make))).headD ("", 0)
    let topType := (valueCounts (d.map (fun r => r.evType))).headD ("", 0)
    let topState := (valueCounts (d.map (fun r => r.state))).headD ("", 0)
    some
      { marketLeader := topMake.1
        marketLeaderCount := topMake.2
        marketLeaderPct := ((topMake.2 : ℚ) / (d.length : ℚ)) * 100
        dominantType := topType.1
        dominantTypePct := ((topType.2 : ℚ) / (d.length : ℚ)) * 100
        geographicLeader := topState.1
        geographicLeaderCount := topState.2
        geographicLeaderPct := ((topState.2 : ℚ) / (d.length : ℚ)) * 100
        averageRange := avgRange d }
  else none

/-! Helper lemmas. -/

theorem mem_dedupFirst {α : Type} [DecidableEq α] :
    ∀ {l : List α} {v : α}, v ∈ dedupFirst l ↔ v ∈ l := by
  intro l
  induction l with
  | nil => simp [dedupFirst]
  | cons x xs ih =>
    intro v
    rw [dedupFirst]
    by_cases hv : v = x
    · subst hv; simp
    · simp only [List.mem_cons, List.mem_filter, decide_eq_true_eq, ih]
      constructor
      · rintro (rfl | ⟨hmem, _⟩)
        · exact Or.inl rfl
        · exact Or.inr hmem
      · rintro (rfl | hmem)
        · exact Or.inl rfl
        · exact Or.inr ⟨hmem, hv⟩

theorem nodup_dedupFirst {α : Type} [DecidableEq α] :
    ∀ (l : List α), (dedupFirst l).Nodup := by
  intro l
  induction l with
  | nil => simp [dedupFirst]
  | cons x xs ih =>
    rw [dedupFirst]
    refine List.nodup_cons.2 ⟨?_, List.Nodup.filter _ ih⟩
    intro hx
    have := List.of_mem_filter hx
    simp at this

theorem pairwise_indexOf_dedupFirst {α : Type} [DecidableEq α] :
    ∀ (l : List α), (dedupFirst l).Pairwise (fun u v => l.indexOf u < l.indexOf v) := by
  intro l
  induction l with
  | nil => simp [dedupFirst]
  | cons x xs ih =>
    rw [dedupFirst]
    refine List.pairwise_cons.2 ⟨?_, ?_⟩
    · intro v hv
      have hvx : v ≠ x := by
        have := List.of_mem_filter hv
        simpa using this
      rw [List.indexOf_cons_self, List.indexOf_cons_ne _ (fun h => hvx h.symm)]
      exact Nat.succ_pos _
    · have hpf : ((dedupFirst xs).filter (fun y => decide (y ≠ x))).Pairwise
          (fun u v => xs.indexOf u < xs.indexOf v) :=
        List.Pairwise.sublist (List.filter_sublist _) ih
      refine hpf.imp_of_mem ?_
      intro u v hu hv hlt
      have hux : u ≠ x := by have := List.of_mem_filter hu; simpa using this
      have hvx : v ≠ x := by have := List.of_mem_filter hv; simpa using this
      rw [List.indexOf_cons_ne _ (fun h => hux h.symm),
        List.indexOf_cons_ne _ (fun h => hvx h.symm)]
      exact Nat.succ_lt_succ hlt

theorem sum_counts_of_cover {α : Type} [DecidableEq α] :
    ∀ (ks l : List α), ks.Nodup → (∀ v ∈ l, v ∈ ks) → (∀ v ∈ ks, v ∈ l) →
    (ks.map (fun v => l.count v)).sum = l.length := by
  intro ks
  induction ks with
  | nil =>
    intro l _ hcov _
    have hl : l = [] :=
      List.eq_nil_iff_forall_not_mem.2 (fun v hv => by simpa using hcov v hv)
    subst hl
    rfl
  | cons k ks ih =>
    intro l hnd hcov hmem
    have hknotin : k ∉ ks := (List.nodup_cons.1 hnd).1
    have hnd' : ks.Nodup := (List.nodup_cons.1 hnd).2
    have hcongr : ks.map (fun v => l.count v) =
        ks.map (fun v => (l.filter (fun y => decide (y ≠ k))).count v) := by
      apply List.map_congr_left
      intro v hv
      have hvk : v ≠ k := fun h => hknotin (h ▸ hv)
      rw [List.count_filter (by simpa using hvk)]
    have hcov2 : ∀ v ∈ l.filter (fun y => decide (y ≠ k)), v ∈ ks := by
      intro v hv
      have hvl := List.mem_of_mem_filter hv
      have hvk : v ≠ k := by have := List.of_mem_filter hv; simpa using this
      rcases List.mem_cons.1 (hcov v hvl) with h | h
      · exact absurd h hvk
      · exact h
    have hmem2 : ∀ v ∈ ks, v ∈ l.filter (fun y => decide (y ≠ k)) := by
      intro v hv
      have hvk : v ≠ k := fun h => hknotin (h ▸ hv)
      exact List.mem_filter.2
        ⟨hmem v (List.mem_cons_of_mem _ hv), by simpa using hvk⟩
    rw [List.map_cons, List.sum_cons, hcongr, ih _ hnd' hcov2 hmem2]
    have hsplit := List.length_eq_countP_add_countP (fun y => decide (y ≠ k)) l
    rw [List.countP_eq_length_filter] at hsplit
    have hcnt : List.countP (fun a => decide ¬(decide (a ≠ k) = true)) l =
        l.count k := by
      rw [List.count]
      apply List.countP_congr
      intro a _
      constructor
      · intro h
        simp only [decide_eq_true_eq] at h
        have ha : a = k := by
          by_contra hca
          exact h (by simpa using hca)
        simp [ha]
      · intro h
        have ha : a = k := by simpa using h
        simp [ha]
    rw [hcnt] at hsplit
    omega

theorem sum_counts_dedupFirst {α : Type} [DecidableEq α] (l : List α) :
    ((dedupFirst l).map (fun v => l.count v)).sum = l.length :=
  sum_counts_of_cover (dedupFirst l) l (nodup_dedupFirst l)
    (fun _ hv => mem_dedupFirst.2 hv) (fun _ hv => mem_dedupFirst.1 hv)

theorem pairwise_orderedInsert_countGE {α : Type} {P : α × Nat → α × Nat → Prop}
    {x : α × Nat} :
    ∀ {l : List (α × Nat)}, l.Pairwise P → (∀ z ∈ l, P x z) →
    (∀ z ∈ l, ¬ countGE x z → P z x) →
    (List.orderedInsert countGE x l).Pairwise P := by
  intro l
  induction l with
  | nil =>
    intro _ _ _
    simp [List.orderedInsert]
  | cons y ys ih =>
    intro hp hx hv
    rw [List.orderedInsert]
    by_cases h : countGE x y
    · rw [if_pos h]
      exact List.pairwise_cons.2 ⟨hx, hp⟩
    · rw [if_neg h]
      refine List.pairwise_cons.2 ⟨?_, ?_⟩
      · intro z hz
        rcases (List.mem_orderedInsert _).1 hz with rfl | hz'
        · exact hv y (List.mem_cons_self _ _) h
        · exact (List.pairwise_cons.1 hp).1 z hz'
      · exact ih (List.pairwise_cons.1 hp).2
          (fun z hz => hx z (List.mem_cons_of_mem _ hz))
          (fun z hz hc => hv z (List.mem_cons_of_mem _ hz) hc)

theorem pairwise_insertionSort_countGE {α : Type} {P : α × Nat → α × Nat → Prop}
    (hvac : ∀ a b : α × Nat, ¬ countGE a b → P b a) :
    ∀ {l : List (α × Nat)}, l.Pairwise P →
    (List.insertionSort countGE l).Pairwise P := by
  intro l
  induction l with
  | nil => intro _; simp [List.insertionSort]
  | cons x xs ih =>
    intro hp
    rw [List.insertionSort]
    refine pairwise_orderedInsert_countGE (ih (List.pairwise_cons.1 hp).2) ?_ ?_
    · intro z hz
      exact (List.pairwise_cons.1 hp).1 z ((List.mem_insertionSort _).1 hz)
    · intro z _ hc
      exact hvac x z hc

theorem mem_valueCounts {α : Type} [DecidableEq α] {l : List α} {p : α × Nat} :
    p ∈ valueCounts l ↔ p.1 ∈ l ∧ p.2 = l.count p.1 := by
  rw [valueCounts, List.mem_insertionSort]
  constructor
  · intro hm
    rcases List.mem_map.1 hm with ⟨v, hv, hvp⟩
    rcases hvp
    exact ⟨mem_dedupFirst.1 hv, rfl⟩
  · rintro ⟨hmem, hc⟩
    apply List.mem_map.2
    refine ⟨p.1, mem_dedupFirst.2 hmem, ?_⟩
    rw [← hc]

theorem valueCounts_perm {α : Type} [DecidableEq α] (l : List α) :
    (valueCounts l).Perm ((dedupFirst l).map (fun v => (v, l.count v))) :=
  List.perm_insertionSort _ _

theorem valueCounts_sorted {α : Type} [DecidableEq α] (l : List α) :
    (valueCounts l).Pairwise (fun a b => b.2 ≤ a.2) :=
  List.sorted_insertionSort countGE _

theorem valueCounts_stable {α : Type} [DecidableEq α] (l : List α) :
    (valueCounts l).Pairwise
      (fun a b => a.2 = b.2 → l.indexOf a.1 ≤ l.indexOf b.1) := by
  apply pairwise_insertionSort_countGE
  · intro a b hab heq
    exfalso
    apply hab
    rw [countGE, heq]
  · have hdd := pairwise_indexOf_dedupFirst l
    have : ((dedupFirst l).map (fun v => (v, l.count v))).Pairwise
        (fun a b => l.indexOf a.1 < l.indexOf b.1) :=
      List.pairwise_map.2 (by simpa using hdd)
    exact this.imp (fun {a b} h => fun _ => Nat.le_of_lt h)

theorem yearlyCounts_sorted_aux (d : List Record) :
    (yearlyCounts d).Pairwise (fun a b => a.1 < b.1) := by
  have hsorted : (yearlyCounts d).Pairwise keyLE :=
    List.sorted_insertionSort keyLE _
  have hperm := List.perm_insertionSort (keyLE (α := Int))
    ((dedupFirst (d.map (fun r => r.modelYear))).map
      (fun y => (y, (d.map (fun r => r.modelYear)).count y)))
  have hnodupkeys : ((yearlyCounts d).map Prod.fst).Nodup := by
    have h1 : (((dedupFirst (d.map (fun r => r.modelYear))).map
        (fun y => (y, (d.map (fun r => r.modelYear)).count y))).map Prod.fst).Nodup := by
      have h2 : (((dedupFirst (d.map (fun r => r.modelYear))).map
          (fun y => (y, (d.map (fun r => r.modelYear)).count y))).map Prod.fst) =
          dedupFirst (d.map (fun r => r.modelYear)) := by
        rw [List.map_map]
        exact List.map_id _
      rw [h2]
      exact nodup_dedupFirst _
    exact ((hperm.map Prod.fst).nodup_iff).2 h1
  have hne : (yearlyCounts d).Pairwise (fun a b => a.1 ≠ b.1) :=
    List.pairwise_map.1 hnodupkeys
  have := hsorted.and hne
  exact this.imp (fun h => lt_of_le_of_ne h.1 h.2)

theorem mem_yearlyCounts {d : List Record} {p : Int × Nat} :
    p ∈ yearlyCounts d ↔
      p.1 ∈ d.map (fun r => r.modelYear) ∧
      p.2 = (d.map (fun r => r.modelYear)).count p.1 := by
  rw [yearlyCounts, List.mem_insertionSort]
  constructor
  · intro hm
    rcases List.mem_map.1 hm with ⟨v, hv, hvp⟩
    rcases hvp
    exact ⟨mem_dedupFirst.1 hv, rfl⟩
  · rintro ⟨hmem, hc⟩
    apply List.mem_map.2
    refine ⟨p.1, mem_dedupFirst.2 hmem, ?_⟩
    rw [← hc]

theorem yearlyCounts_pos {d : List Record} {p : Int × Nat}
    (hp : p ∈ yearlyCounts d) : 0 < p.2 := by
  rcases mem_yearlyCounts.1 hp with ⟨hmem, hc⟩
  rw [hc]
  exact List.count_pos_iff.2 hmem

theorem filterEngine_idem (d : List Record) (s : FilterSpec) :
    filterEngine (filterEngine d s) s = filterEngine d s := by
  rw [filterEngine, filterEngine, List.filter_filter]
  exact List.filter_congr (fun a _ => Bool.and_self _)

theorem growthAux_length (prev : Nat) :
    ∀ (t : List (Int × Nat)), (growthAux prev t).length = t.length := by
  intro t
  induction t generalizing prev with
  | nil => rfl
  | cons hd rest ih =>
    rcases hd with ⟨y, c⟩
    rw [growthAux]
    simp [ih]

theorem growthAux_getD (prev : Nat) :
    ∀ (t : List (Int × Nat)) (i : Nat), i < t.length →
    (growthAux prev t).getD i (0, PFloat.nan) =
      ((t.getD i (0, 0)).1,
        pctStep (if i = 0 then prev else (t.getD (i - 1) (0, 0)).2)
          (t.getD i (0, 0)).2) := by
  intro t
  induction t generalizing prev with
  | nil => intro i hi; simp at hi
  | cons hd rest ih =>
    intro i hi
    rcases hd with ⟨y, c⟩
    rw [growthAux]
    cases i with
    | zero => simp
    | succ j =>
      rw [List.getD_cons_succ, List.getD_cons_succ,
        ih c j (by simpa using Nat.lt_of_succ_lt_succ hi)]
      cases j with
      | zero => simp
      | succ k => simp

/-! Claim theorems. -/

/-- Claim C1: the Filter Engine returns exactly the records, in original
insertion order, whose model year lies within the closed year range and
whose state, make and EV type lie in the respective selected sets
(`specPasses` transcribes the spec's four-predicate conjunction); the
result is a subsequence of the dataset, and an empty states, makes or
evTypes selection lets no record pass. -/
theorem filterEngine_matches_spec (d : List Record) (s : FilterSpec) :
    filterEngine d s = d.filter (fun r => decide (specPasses s r))
    ∧ (filterEngine d s).Sublist d
    ∧ ((s.states = [] ∨ s.makes = [] ∨ s.evTypes = []) → filterEngine d s = []) := by
  refine ⟨?_, List.filter_sublist _, ?_⟩
  · apply List.filter_congr
    intro r _
    rw [Bool.eq_iff_iff]
    simp [recordPasses, specPasses, and_assoc]
  · intro h
    apply List.filter_eq_nil_iff.2
    intro r _
    rcases h with h | h | h <;> simp [recordPasses, h]

/-- Claim C1 witness: a spec with an empty states set filters a concrete
one-record dataset down to nothing. -/
theorem filterEngine_matches_spec_witness :
    filterEngine [⟨2022, "WA", "", "TESLA", "", "BEV", "", 250, 0⟩]
      ⟨2021, 2022, [], ["TESLA"], ["BEV"]⟩ = [] :=
  (filterEngine_matches_spec
    [⟨2022, "WA", "", "TESLA", "", "BEV", "", 250, 0⟩]
    ⟨2021, 2022, [], ["TESLA"], ["BEV"]⟩).2.2 (Or.inl rfl)

/-- Claim C6: a year range whose minimum exceeds its maximum passes no
record — pandas `between(lo, hi)` demands `lo ≤ year ≤ hi`, which is
unsatisfiable when `hi < lo`; the bounds are not swapped and nothing is
raised. -/
theorem emptyYearRange (d : List Record) (s : FilterSpec)
    (h : s.yearMax < s.yearMin) : filterEngine d s = [] := by
  apply List.filter_eq_nil_iff.2
  intro r _
  simp only [recordPasses, Bool.and_eq_true, decide_eq_true_eq]
  rintro ⟨⟨⟨⟨h1, h2⟩, _⟩, _⟩, _⟩
  omega

/-- Claim C6 witness: an inverted year range on a concrete dataset. -/
theorem emptyYearRange_witness :
    filterEngine [⟨2022, "WA", "", "TESLA", "", "BEV", "", 250, 0⟩]
      ⟨2030, 2020, ["WA"], ["TESLA"], ["BEV"]⟩ = [] :=
  emptyYearRange [⟨2022, "WA", "", "TESLA", "", "BEV", "", 250, 0⟩]
    ⟨2030, 2020, ["WA"], ["TESLA"], ["BEV"]⟩ (by decide)

/-- Claim C8: filter monotonicity — keeping the year range and widening
the states, makes and evTypes selections (component-wise superset, which
covers widening any single one) never removes a record from the filtered
view. -/
theorem filterMonotone (d : List Record) (s₁ s₂ : FilterSpec)
    (hy1 : s₁.yearMin = s₂.yearMin) (hy2 : s₁.yearMax = s₂.yearMax)
    (hs : ∀ x ∈ s₁.states, x ∈ s₂.states)
    (hm : ∀ x ∈ s₁.makes, x ∈ s₂.makes)
    (he : ∀ x ∈ s₁.evTypes, x ∈ s₂.evTypes) :
    ∀ r ∈ filterEngine d s₁, r ∈ filterEngine d s₂ := by
  intro r hr
  rw [filterEngine, List.mem_filter] at hr ⊢
  refine ⟨hr.1, ?_⟩
  have h2 := hr.2
  simp only [recordPasses, Bool.and_eq_true, decide_eq_true_eq] at h2 ⊢
  exact ⟨⟨⟨⟨hy1 ▸ h2.1.1.1.1, hy2 ▸ h2.1.1.1.2⟩, hs _ h2.1.1.2⟩,
    hm _ h2.1.2⟩, he _ h2.2⟩

/-- Claim C8 witness: adding a state to the selection keeps a concrete
record in the filtered view. -/
theorem filterMonotone_witness :
    (⟨2022, "WA", "", "TESLA", "", "BEV", "", 250, 0⟩ : Record) ∈
      filterEngine [⟨2022, "WA", "", "TESLA", "", "BEV", "", 250, 0⟩]
        ⟨2020, 2025, ["WA", "CA"], ["TESLA"], ["BEV"]⟩ :=
  filterMonotone [⟨2022, "WA", "", "TESLA", "", "BEV", "", 250, 0⟩]
    ⟨2020, 2025, ["WA"], ["TESLA"], ["BEV"]⟩
    ⟨2020, 2025, ["WA", "CA"], ["TESLA"], ["BEV"]⟩
    rfl rfl (by decide) (by decide) (by decide)
    ⟨2022, "WA", "", "TESLA", "", "BEV", "", 250, 0⟩ (by decide)

/-- Claim C9: the Filter Engine is a deterministic pure function of the
`(dataset, spec)` pair — re-applying it any number of times (to its own
output, with the same spec) reproduces the identical filtered view, in
contents and order. -/
theorem filterDeterministic (d : List Record) (s : FilterSpec) (n : Nat) :
    (fun v => filterEngine v s)^[n] (filterEngine d s) = filterEngine d s := by
  induction n with
  | zero => rfl
  | succ k ih => rw [Function.iterate_succ_apply', ih, filterEngine_idem]

/-- Claim C4: a FilterSpec matching zero records (an empty states set
suffices, whatever the other fields) yields an empty filtered view; on it
every aggregate returns its empty/neutral value, and the insight block is
absent because the `len(filtered_df) > 0` guard at app.py line 114 skips
it.  All functions involved are total Lean functions, so nothing raises
and no NaN is produced. -/
theorem emptyFilterBehavior (d : List Record) (s : FilterSpec) :
    (s.states = [] → filterEngine d s = [])
    ∧ (filterEngine d s = [] →
        insights (filterEngine d s) = none
        ∧ valueCounts ((filterEngine d s).map (fun r => r.make)) = []
        ∧ valueCounts ((filterEngine d s).map (fun r => r.evType)) = []
        ∧ valueCounts ((filterEngine d s).map (fun r => r.state)) = []
        ∧ yearlyCounts (filterEngine d s) = []
        ∧ growthRates (yearlyCounts (filterEngine d s)) = []
        ∧ avgRange (filterEngine d s) = none) := by
  constructor
  · intro h
    apply List.filter_eq_nil_iff.2
    intro r _
    simp [recordPasses, h]
  · intro h
    rw [h]
    exact ⟨rfl, rfl, rfl, rfl, rfl, rfl, rfl⟩

/-- Claim C4 witness: a concrete spec with an empty states set produces an
empty view and an absent insight set. -/
theorem emptyFilterBehavior_witness :
    filterEngine [⟨2022, "WA", "", "TESLA", "", "BEV", "", 250, 0⟩]
      ⟨2020, 2025, [], ["TESLA"], ["BEV"]⟩ = []
    ∧ insights (filterEngine [⟨2022, "WA", "", "TESLA", "", "BEV", "", 250, 0⟩]
        ⟨2020, 2025, [], ["TESLA"], ["BEV"]⟩) = none := by
  have h := emptyFilterBehavior [⟨2022, "WA", "", "TESLA", "", "BEV", "", 250, 0⟩]
    ⟨2020, 2025, [], ["TESLA"], ["BEV"]⟩
  have h1 := h.1 rfl
  exact ⟨h1, (h.2 h1).1⟩

/-- Claim C3: the average electric range is the mean of the field values
after dropping every value equal to the sentinel 0 (the code's
`Electric Range > 0` row filter equals the value-level `≠ 0` filter since
ranges are non-negative); when every value is dropped the result is
absent rather than NaN, and on range values `[0, 100, 0, 200]` the
average is 150. -/
theorem avgRangeExcludesSentinel (d : List Record) :
    avgRange d =
      (if specValidRanges d = [] then none
       else some (((specValidRanges d).map (fun x : Nat => (x : ℚ))).sum /
         ((specValidRanges d).length : ℚ)))
    ∧ avgRange
        [⟨2022, "WA", "", "TESLA", "", "BEV", "", 0, 0⟩,
         ⟨2022, "WA", "", "TESLA", "", "BEV", "", 100, 0⟩,
         ⟨2021, "CA", "", "NISSAN", "", "BEV", "", 0, 0⟩,
         ⟨2021, "CA", "", "TESLA", "", "BEV", "", 200, 0⟩] = some 150 := by
  constructor
  · have hmf : (d.filter (fun r => decide (0 < r.electricRange))).map
        (fun r => r.electricRange) =
        (d.map (fun r => r.electricRange)).filter (fun x => decide (x ≠ 0)) := by
      rw [List.filter_map]
      have hfun : ((fun x => decide (x ≠ 0)) ∘ (fun r : Record => r.electricRange)) =
          (fun r : Record => decide (0 < r.electricRange)) := by
        funext r
        simp [Function.comp, Nat.pos_iff_ne_zero]
      rw [hfun]
    rw [avgRange, specValidRanges, ← hmf]
    have hcast : (List.map (fun r : Record => ((r.electricRange : ℚ)))
        (d.filter (fun r => decide (0 < r.electricRange)))) =
        List.map (fun x : Nat => (x : ℚ))
          ((d.filter (fun r => decide (0 < r.electricRange))).map
            (fun r => r.electricRange)) := by
      rw [List.map_map]
      rfl
    rw [hcast]
    simp only [List.length_map]
    apply if_congr
    · rw [List.length_eq_zero, List.map_eq_nil_iff]
    · rfl
    · rfl
  · norm_num [avgRange, List.filter]

/-- Claim C5: a categorical value-count mapping carries exactly the
distinct observed values, each mapped to its occurrence count; it is
ordered by count descending, ties broken by first-appearance order in the
view; `topN` truncates to the first N entries, and every entry left out
counts no more than any entry kept. -/
theorem valueCountsSpec {α : Type} [DecidableEq α] (l : List α) (n : Nat) :
    (∀ v, (∃ c, (v, c) ∈ valueCounts l) ↔ v ∈ l)
    ∧ (∀ p ∈ valueCounts l, p.2 = l.count p.1)
    ∧ ((valueCounts l).map Prod.fst).Nodup
    ∧ (valueCounts l).Pairwise (fun a b => b.2 ≤ a.2)
    ∧ (valueCounts l).Pairwise
        (fun a b => a.2 = b.2 → l.indexOf a.1 ≤ l.indexOf b.1)
    ∧ topN n l = (valueCounts l).take n
    ∧ (∀ p ∈ valueCounts l, p ∉ topN n l → ∀ q ∈ topN n l, p.2 ≤ q.2) := by
  refine ⟨?_, ?_, ?_, valueCounts_sorted l, valueCounts_stable l, rfl, ?_⟩
  · intro v
    constructor
    · rintro ⟨c, hc⟩
      exact (mem_valueCounts.1 hc).1
    · intro hv
      exact ⟨l.count v, mem_valueCounts.2 ⟨hv, rfl⟩⟩
  · intro p hp
    exact (mem_valueCounts.1 hp).2
  · have h2 : (((dedupFirst l).map (fun v => (v, l.count v))).map Prod.fst) =
        dedupFirst l := by
      rw [List.map_map]
      exact List.map_id _
    have h1 : (((dedupFirst l).map (fun v => (v, l.count v))).map Prod.fst).Nodup := by
      rw [h2]
      exact nodup_dedupFirst _
    exact (((valueCounts_perm l).map Prod.fst).nodup_iff).2 h1
  · intro p hp hnp q hq
    have hsplit : p ∈ (valueCounts l).take n ++ (valueCounts l).drop n := by
      rw [List.take_append_drop]
      exact hp
    rcases List.mem_append.1 hsplit with h | h
    · exact absurd h hnp
    · exact List.Sorted.rel_of_mem_take_of_mem_drop (valueCounts_sorted l) hq h

/-- Claim C5 witness: on the field values ["BEV", "PHEV", "BEV"] the
mapping is sorted by count descending and assigns "PHEV" its count 1. -/
theorem valueCountsSpec_witness :
    (valueCounts ["BEV", "PHEV", "BEV"]).Pairwise (fun a b => b.2 ≤ a.2)
    ∧ (("PHEV", 1) : String × Nat).2 = (["BEV", "PHEV", "BEV"]).count "PHEV" := by
  have h := valueCountsSpec ["BEV", "PHEV", "BEV"] 1
  exact ⟨h.2.2.2.1, h.2.1 ("PHEV", 1) (by decide)⟩

/-- Claim C7: count conservation — for any view of records and any field,
the counts of the untruncated value-count mapping sum to the number of
records in the view. -/
theorem countConservation {β : Type} [DecidableEq β] (view : List Record)
    (f : Record → β) :
    ((valueCounts (view.map f)).map Prod.snd).sum = view.length := by
  have hperm := (valueCounts_perm (view.map f)).map Prod.snd
  rw [hperm.sum_eq, List.map_map]
  have hcomp : (Prod.snd ∘ fun v => (v, (view.map f).count v)) =
      (fun v => (view.map f).count v) := rfl
  rw [hcomp, sum_counts_dedupFirst, List.length_map]

/-- Claim C10: the yearly-count table is ordered by model year strictly
ascending whatever order the years appear in the view (pandas `groupby`
sorts its keys), establishing the ascending-order precondition of the
growth-rate computation; moreover every count in the table is positive. -/
theorem yearlyCountsSorted (d : List Record) :
    (yearlyCounts d).Pairwise (fun a b => a.1 < b.1)
    ∧ ∀ p ∈ yearlyCounts d, 0 < p.2 :=
  ⟨yearlyCounts_sorted_aux d, fun _ hp => yearlyCounts_pos hp⟩

/-- Claim C10 witness: a two-record view whose years arrive descending
still yields an ascending table, with positive counts. -/
theorem yearlyCountsSorted_witness :
    (yearlyCounts [⟨2023, "WA", "", "TESLA", "", "BEV", "", 250, 0⟩,
        ⟨2020, "CA", "", "NISSAN", "", "BEV", "", 150, 0⟩]).Pairwise
      (fun a b => a.1 < b.1)
    ∧ 0 < (((2020 : Int), 1) : Int × Nat).2 := by
  have h := yearlyCountsSorted [⟨2023, "WA", "", "TESLA", "", "BEV", "", 250, 0⟩,
    ⟨2020, "CA", "", "NISSAN", "", "BEV", "", 150, 0⟩]
  exact ⟨h.1, h.2 (2020, 1) (by decide)⟩

/-- Claim C2 counterexample: on the yearly counts [(2020, 0), (2021, 5)]
the code's `pct_change() * 100` produces +infinity for 2021 (IEEE division
by the zero previous count), not an absent value as the claim requires. -/
theorem growthRatesZeroDenominator_counterexample :
    growthRates [((2020 : Int), 0), (2021, 5)] =
      [(2020, PFloat.nan), (2021, PFloat.inf)]
    ∧ PFloat.inf ≠ PFloat.nan := by
  constructor
  · rfl
  · intro h
    exact PFloat.noConfusion h

/-- Claim C2 amended: the growth-rate column has one entry per year; the
first year's entry is NaN (absent, and skipped by the chart); every later
year with a nonzero previous count gets
`(count[i] - count[i-1]) / count[i-1] * 100`; but a zero previous count
yields +infinity (NaN when the current count is also zero), not an absent
value.  Tables produced by the pipeline's own grouping have only positive
counts, so the zero-denominator case never arises from the dashboard. -/
theorem growthRatesSpec (t : List (Int × Nat)) :
    (growthRates t).length = t.length
    ∧ (0 < t.length →
        (growthRates t).getD 0 (0, PFloat.nan) =
          ((t.getD 0 (0, 0)).1, PFloat.nan))
    ∧ (∀ i, i + 1 < t.length →
        (growthRates t).getD (i + 1) (0, PFloat.nan) =
          ((t.getD (i + 1) (0, 0)).1,
            if (t.getD i (0, 0)).2 = 0 then
              (if (t.getD (i + 1) (0, 0)).2 = 0 then PFloat.nan else PFloat.inf)
            else PFloat.val (((((t.getD (i + 1) (0, 0)).2 : ℚ) -
                ((t.getD i (0, 0)).2 : ℚ)) / ((t.getD i (0, 0)).2 : ℚ)) * 100)))
    ∧ (∀ d : List Record, ∀ p ∈ yearlyCounts d, 0 < p.2) := by
  refine ⟨?_, ?_, ?_, fun d p hp => yearlyCounts_pos hp⟩
  · cases t with
    | nil => rfl
    | cons hd rest =>
      rcases hd with ⟨y, c⟩
      rw [growthRates]
      simp [growthAux_length]
  · cases t with
    | nil =>
      intro h
      simp at h
    | cons hd rest =>
      rcases hd with ⟨y, c⟩
      intro _
      rfl
  · cases t with
    | nil =>
      intro i hi
      simp at hi
    | cons hd rest =>
      rcases hd with ⟨y, c⟩
      intro i hi
      have hi' : i < rest.length := by
        simpa using Nat.lt_of_succ_lt_succ hi
      rw [growthRates, List.getD_cons_succ, List.getD_cons_succ,
        growthAux_getD c rest i hi']
      cases i with
      | zero => simp [pctStep]
      | succ j => simp [pctStep]

/-- Claim C2 witness for the amended statement: on [(2020, 5), (2021, 10)]
the 2021 growth rate is 100%. -/
theorem growthRatesSpec_witness :
    (growthRates [((2020 : Int), 5), (2021, 10)]).getD 1 (0, PFloat.nan) =
      (2021, PFloat.val 100) := by
  have h := (growthRatesSpec [((2020 : Int), 5), (2021, 10)]).2.2.1 0 (by decide)
  rw [h]
  norm_num

end EV
